import Mathlib

/-!
# Verification of the workers-sdk reconciler and R2 lifecycle-rule editor

Shallow embedding of:
* `src/packages/create-cloudflare/templates/solid/c3.ts` — the container-application
  reconciler (`applyCommand`, `stripUndefined`, `order`, `sortObjectDeeply`,
  `applicationToCreateApplication`);
* `src/packages/wrangler/src/r2/lifecycle.ts` — the R2 lifecycle-rule editor
  (`AddHandler` condition collection, `RemoveHandler`).

JavaScript objects/arrays are modelled by the nested inductive `JVal`; `JVal.undef`
models the JavaScript value `undefined` (a key bound to `undef` models an
own-property whose value is `undefined`; an absent key is simply missing from the
association list, exactly as in a JavaScript object).
-/

namespace Containers

/-- A JavaScript (TOML/JSON-serializable) value, plus `undefined`.
Objects keep their keys in insertion order, as JavaScript objects do. -/
inductive JVal where
  | str : String → JVal
  | num : Int → JVal
  | bool : Bool → JVal
  | undef : JVal
  | arr : List JVal → JVal
  | obj : List (String × JVal) → JVal
deriving Repr

/-- `v === undefined`. -/
def JVal.isUndef : JVal → Bool
  | .undef => true
  | _ => false

/-- `typeof v === "object"` for the values of our model (`null` does not occur in
TOML- or JSON-derived data handled by the reconciler). -/
def JVal.isObjectType : JVal → Bool
  | .arr _ => true
  | .obj _ => true
  | _ => false

mutual

/-- Structural equality of `JVal`s (used to derive a `DecidableEq` instance for
the nested inductive). -/
def beqJVal : JVal → JVal → Bool
  | .str a, .str b => a == b
  | .num a, .num b => a == b
  | .bool a, .bool b => a == b
  | .undef, .undef => true
  | .arr xs, .arr ys => beqJValList xs ys
  | .obj xs, .obj ys => beqJValEntries xs ys
  | _, _ => false

def beqJValList : List JVal → List JVal → Bool
  | [], [] => true
  | x :: xs, y :: ys => beqJVal x y && beqJValList xs ys
  | _, _ => false

def beqJValEntries : List (String × JVal) → List (String × JVal) → Bool
  | [], [] => true
  | (k, v) :: xs, (k2, v2) :: ys => k == k2 && beqJVal v v2 && beqJValEntries xs ys
  | _, _ => false

end

/-- Member-wise induction for the nested inductive `JVal`. -/
theorem JVal.memInduction {motive : JVal → Prop}
    (str : ∀ s, motive (.str s)) (num : ∀ n, motive (.num n))
    (bool : ∀ b, motive (.bool b)) (undef : motive .undef)
    (arr : ∀ xs, (∀ x ∈ xs, motive x) → motive (.arr xs))
    (obj : ∀ kvs, (∀ kv ∈ kvs, motive kv.2) → motive (.obj kvs)) :
    ∀ v, motive v
  | .str s => str s
  | .num n => num n
  | .bool b => bool b
  | .undef => undef
  | .arr xs =>
      arr xs fun x _ => JVal.memInduction str num bool undef arr obj x
  | .obj kvs =>
      obj kvs fun kv _ => JVal.memInduction str num bool undef arr obj kv.2
termination_by v => sizeOf v
decreasing_by
  · rename_i hx
    have h := List.sizeOf_lt_of_mem hx
    simp only [JVal.arr.sizeOf_spec]
    omega
  · rename_i kv hkv
    have h := List.sizeOf_lt_of_mem hkv
    obtain ⟨k, v⟩ := kv
    simp only [JVal.obj.sizeOf_spec, Prod.mk.sizeOf_spec] at *
    omega

theorem beqJValList_eq_true_iff (xs : List JVal)
    (ih : ∀ x ∈ xs, ∀ b, beqJVal x b = true ↔ x = b) :
    ∀ ys, beqJValList xs ys = true ↔ xs = ys := by
  induction xs with
  | nil => intro ys; cases ys <;> simp [beqJValList]
  | cons x xs ihl =>
    intro ys
    cases ys with
    | nil => simp [beqJValList]
    | cons y ys =>
      have h1 := ih x (by simp)
      have h2 := ihl (fun z hz b => ih z (by simp [hz]) b) ys
      simp [beqJValList, Bool.and_eq_true, h1, h2]

theorem beqJValEntries_eq_true_iff (xs : List (String × JVal))
    (ih : ∀ kv ∈ xs, ∀ b, beqJVal kv.2 b = true ↔ kv.2 = b) :
    ∀ ys, beqJValEntries xs ys = true ↔ xs = ys := by
  induction xs with
  | nil => intro ys; cases ys <;> simp [beqJValEntries]
  | cons x xs ihl =>
    intro ys
    obtain ⟨k, v⟩ := x
    cases ys with
    | nil => simp [beqJValEntries]
    | cons y ys =>
      obtain ⟨k2, v2⟩ := y
      have h1 := ih (k, v) (by simp) v2
      have h2 := ihl (fun z hz b => ih z (by simp [hz]) b) ys
      simp [beqJValEntries, Bool.and_eq_true, h1, h2, Prod.ext_iff, and_assoc]

theorem beqJVal_eq_true_iff : ∀ a b, beqJVal a b = true ↔ a = b := by
  intro a
  induction a using JVal.memInduction with
  | str s => intro b; cases b <;> simp [beqJVal]
  | num n => intro b; cases b <;> simp [beqJVal]
  | bool bb => intro b; cases b <;> simp [beqJVal]
  | undef => intro b; cases b <;> simp [beqJVal]
  | arr xs ih =>
    intro b
    cases b <;> simp [beqJVal]
    exact beqJValList_eq_true_iff xs ih _
  | obj kvs ih =>
    intro b
    cases b <;> simp [beqJVal]
    exact beqJValEntries_eq_true_iff kvs ih _

instance : DecidableEq JVal := fun a b =>
  decidable_of_iff (beqJVal a b = true) (beqJVal_eq_true_iff a b)

/-- Source: `stripUndefined` (c3.ts lines 194–202).  Deletes the own-properties
whose value is `undefined`.  As the source's TODO comment notes, this is *not*
recursive: only the top level is stripped. -/
def stripUndefined : JVal → JVal
  | .obj kvs => .obj (kvs.filter fun kv => !kv.2.isUndef)
  | v => v

/-- Lexicographic comparison of character lists by code point, modelling the
comparison JavaScript's default `Array.prototype.sort` applies to strings
(UTF-16 code units; identical to code points for the key names at hand). -/
def charListLe : List Char → List Char → Bool
  | [], _ => true
  | _ :: _, [] => false
  | a :: as, b :: bs =>
      if a.toNat = b.toNat then charListLe as bs
      else decide (a.toNat < b.toNat)

/-- String comparison used when sorting object keys. -/
def keyLe (a b : String) : Bool :=
  charListLe a.data b.data

/-- The ordering relation on object entries: compare the keys. -/
def entryLe (a b : String × JVal) : Prop :=
  keyLe a.1 b.1 = true

instance : DecidableRel entryLe := fun a b => instDecidableEqBool (keyLe a.1 b.1) true

theorem charListLe_total : ∀ a b : List Char, charListLe a b = true ∨ charListLe b a = true := by
  intro a
  induction a with
  | nil => intro b; left; rfl
  | cons x xs ih =>
    intro b
    cases b with
    | nil => right; rfl
    | cons y ys =>
      by_cases h : x.toNat = y.toNat
      · rcases ih ys with h2 | h2
        · left; simp [charListLe, h, h2]
        · right; simp [charListLe, h.symm, h2]
      · rcases Nat.lt_or_ge x.toNat y.toNat with h2 | h2
        · left; simp [charListLe, h, h2]
        · right
          have h3 : y.toNat ≠ x.toNat := fun hc => h hc.symm
          simp only [charListLe, if_neg h3, decide_eq_true_eq]
          omega

theorem charListLe_trans :
    ∀ a b c : List Char, charListLe a b = true → charListLe b c = true →
      charListLe a c = true := by
  intro a
  induction a with
  | nil => intro b c _ _; rfl
  | cons x xs ih =>
    intro b c hab hbc
    cases b with
    | nil => simp [charListLe] at hab
    | cons y ys =>
      cases c with
      | nil => simp [charListLe] at hbc
      | cons z zs =>
        simp only [charListLe] at hab hbc ⊢
        by_cases h1 : x.toNat = y.toNat <;> by_cases h2 : y.toNat = z.toNat
        · rw [if_pos h1] at hab
          rw [if_pos h2] at hbc
          rw [if_pos (h1.trans h2)]
          exact ih ys zs hab hbc
        · rw [if_pos h1] at hab
          rw [if_neg h2, decide_eq_true_eq] at hbc
          have h3 : x.toNat ≠ z.toNat := by omega
          rw [if_neg h3, decide_eq_true_eq]
          omega
        · rw [if_neg h1, decide_eq_true_eq] at hab
          rw [if_pos h2] at hbc
          have h3 : x.toNat ≠ z.toNat := by omega
          rw [if_neg h3, decide_eq_true_eq]
          omega
        · rw [if_neg h1, decide_eq_true_eq] at hab
          rw [if_neg h2, decide_eq_true_eq] at hbc
          have h3 : x.toNat ≠ z.toNat := by omega
          rw [if_neg h3, decide_eq_true_eq]
          omega

instance : IsTotal (String × JVal) entryLe :=
  ⟨fun a b => charListLe_total a.1.data b.1.data⟩

instance : IsTrans (String × JVal) entryLe :=
  ⟨fun a b c => charListLe_trans a.1.data b.1.data c.1.data⟩

/-- Source: `order` (c3.ts lines 204–218).  Arrays are returned unchanged; an
object is rebuilt with its keys sorted (`Object.keys(unordered).sort()`).  The
JavaScript engine's `sort` over the (unique) key set is modelled by a stable
insertion sort of the entry list on the key; for unique keys any sort agrees. -/
def order : JVal → JVal
  | .arr xs => .arr xs
  | .obj kvs => .obj (List.insertionSort entryLe kvs)
  | v => v

mutual

/-- Source: `sortObjectDeeply` (c3.ts lines 220–242).  Non-objects are returned
unchanged; arrays are mapped elementwise (order untouched); for an object, every
child of object type is sorted recursively and then the keys are ordered. -/
def sortObjectDeeply : JVal → JVal
  | .arr xs => .arr (sortList xs)
  | .obj kvs => order (.obj (sortEntries kvs))
  | v => v

/-- The elementwise recursion `object.map((obj) => sortObjectDeeply(obj))`. -/
def sortList : List JVal → List JVal
  | [] => []
  | x :: xs => sortObjectDeeply x :: sortList xs

/-- The `for ([key, value] of Object.entries(object))` loop: children of object
type are replaced by their deep sort, other children are kept. -/
def sortEntries : List (String × JVal) → List (String × JVal)
  | [] => []
  | (k, v) :: rest =>
      (k, if v.isObjectType then sortObjectDeeply v else v) :: sortEntries rest

end

mutual

/-- The normalizer described by the specification's words: strip keys whose value
is `undefined` at *every* nesting depth (the source's `stripUndefined` only
strips the top level). -/
def deepStripUndefined : JVal → JVal
  | .obj kvs => .obj (deepStripEntries kvs)
  | .arr xs => .arr (deepStripList xs)
  | v => v

def deepStripList : List JVal → List JVal
  | [] => []
  | x :: xs => deepStripUndefined x :: deepStripList xs

def deepStripEntries : List (String × JVal) → List (String × JVal)
  | [] => []
  | (k, v) :: rest =>
      if v.isUndef then deepStripEntries rest
      else (k, deepStripUndefined v) :: deepStripEntries rest

end

mutual

/-- `v` contains no `undefined` anywhere.  Values parsed from TOML or JSON (the
declared configuration and the remote API's response bodies) satisfy this. -/
def undefFree : JVal → Bool
  | .undef => false
  | .arr xs => undefFreeList xs
  | .obj kvs => undefFreeEntries kvs
  | _ => true

def undefFreeList : List JVal → Bool
  | [] => true
  | x :: xs => undefFree x && undefFreeList xs

def undefFreeEntries : List (String × JVal) → Bool
  | [] => true
  | (_, v) :: rest => undefFree v && undefFreeEntries rest

end

/-- JavaScript truthiness, used by `application.jobs ? true : undefined`.
Falsy values: `""`, `0`, `false`, `undefined` (`null` and `NaN` do not occur in
the model). -/
def JVal.truthy : JVal → Bool
  | .str s => s != ""
  | .num n => n != 0
  | .bool b => b
  | .undef => false
  | .arr _ => true
  | .obj _ => true

/-- A live application returned by the remote listing (`Application` from the API
client).  Only the fields the reconciler reads are modelled.  Optional fields
that are absent in the API response read as `undefined` on property access, which
is what `JVal.undef` stands for here. -/
structure Application where
  id : String
  name : String
  configuration : JVal
  constraints : JVal
  scheduling_policy : JVal
  affinities : JVal
  instances : JVal
  jobs : JVal
deriving DecidableEq, Repr

/-- A declared `container_app` entry from the configuration file
(`CreateApplicationRequest`).  It is a plain parsed-TOML object; the required
`name` key is held separately because the reconciler looks it up, the remaining
key/value entries are kept in file order.  `toJVal` reassembles the full object. -/
structure CreateApplicationRequest where
  name : String
  fields : List (String × JVal)
deriving DecidableEq, Repr

/-- The declared entry as the JavaScript object the source passes to
`sortObjectDeeply` and the serializer.  The `name` key's position among the keys
is irrelevant to every comparison (which happens after key sorting). -/
def CreateApplicationRequest.toJVal (r : CreateApplicationRequest) : JVal :=
  .obj (("name", .str r.name) :: r.fields)

/-- Source: `applicationToCreateApplication` (c3.ts lines 88–100): the object
literal `{configuration, constraints, name, scheduling_policy, affinities,
instances, jobs: application.jobs ? true : undefined}`, keys in source order. -/
def applicationToCreateApplication (application : Application) : JVal :=
  .obj
    [("configuration", application.configuration),
     ("constraints", application.constraints),
     ("name", .str application.name),
     ("scheduling_policy", application.scheduling_policy),
     ("affinities", application.affinities),
     ("instances", application.instances),
     ("jobs", if application.jobs.truthy then .bool true else .undef)]

/-- An entry of the `actions` array (c3.ts lines 292–300): `Create(spec)` or
`Modify(spec, id, name)`; both carry the original declared `appConfig`. -/
inductive Action where
  | create (application : CreateApplicationRequest)
  | modify (application : CreateApplicationRequest) (id : String) (name : String)
deriving DecidableEq, Repr

/-- Observable effects of `applyCommand`: terminal output and remote API calls.
Terminal styling (colors, underline) is the concern of the external rendering
library and is elided from the message strings.  The structured values printed
through the external TOML serializer are carried as `JVal`s. -/
inductive Event where
  | startSection (title subtitle : String)
  | endSection (title : String) (subtitle : Option String)
  | log (message : String)
  | updateStatus (message : String)
  | printedExample (endConfig : JVal)
  | printedNewSpec (value : JVal)
  | printedDiff (prev now : JVal)
  | listApplicationsCall
  | confirmPrompt (question : String)
  | cancel (message : String)
  | createApplicationCall (application : CreateApplicationRequest)
  | modifyApplicationCall (id : String) (application : CreateApplicationRequest)
  | success (message : String)
deriving DecidableEq, Repr

/-- `e` is a call to a remote endpoint. -/
def Event.isRemoteCall : Event → Bool
  | .listApplicationsCall => true
  | .createApplicationCall _ => true
  | .modifyApplicationCall _ _ => true
  | _ => false

/-- Source: c3.ts lines 285–290.  `applicationByNames[application.name] =
application` for every listed application, in order: on duplicate names the last
write wins. -/
def applicationByNames (applications : List Application) : String → Option Application :=
  applications.foldl
    (fun m application n => if n = application.name then some application else m n)
    (fun _ => none)

/-- One iteration of the `for (const appConfig of config.container_app)` loop
(c3.ts lines 304–371): the optional action pushed for this declared entry and the
terminal output it produces.

The external TOML serializer and the line differ are consumed through their
documented contracts (spec §1/§6: both are external collaborators): the
serializer is a deterministic textual rendering of the structure, and
`Diff.diffLines` reports an added or removed line exactly when the two rendered
texts differ.  Their composition — `lines.find((l) => l.added || l.removed) !==
undefined` — is therefore modelled as structural inequality of the two
serialized values. -/
def specStep (byName : String → Option Application) (appConfig : CreateApplicationRequest) :
    Option Action × List Event :=
  match byName appConfig.name with
  | some application =>
      let prevApp := sortObjectDeeply (stripUndefined (applicationToCreateApplication application))
      let prev := JVal.obj [("container_app", prevApp)]
      let now := JVal.obj [("container_app", sortObjectDeeply appConfig.toJVal)]
      if prev = now then
        (none, [.updateStatus ("no changes " ++ application.name)])
      else
        (some (.modify appConfig application.id application.name),
         [.updateStatus ("edited " ++ application.name), .printedDiff prev now])
  | none =>
      (some (.create appConfig),
       [.updateStatus ("new " ++ appConfig.name),
        .printedNewSpec (JVal.obj [("container_app", .arr [appConfig.toJVal])])])

/-- The whole declared-entry loop, accumulating the pushed actions and the output
in order, as the imperative loop does. -/
def reconcileLoop (byName : String → Option Application)
    (specs : List CreateApplicationRequest) : List Action × List Event :=
  specs.foldl
    (fun acc appConfig =>
      let step := specStep byName appConfig
      (acc.1 ++ step.1.toList, acc.2 ++ step.2))
    ([], [])

/-- The command-line arguments `applyCommand` reads: `--json` and `--env`. -/
structure ApplyArgs where
  json : Bool
  env : Option String
deriving DecidableEq, Repr

/-- The slice of the wrangler configuration `applyCommand` reads: the declared
`container_app` list and the optional top-level `name`. -/
structure Config where
  container_app : List CreateApplicationRequest
  name : Option String
deriving DecidableEq, Repr

/-- The example `CreateApplicationRequest` printed on the bootstrap path
(c3.ts lines 258–265), keys in source order.  `SchedulingPolicy.REGIONAL` is the
API client's enum value `"regional"`. -/
def exampleApplication (config : Config) : JVal :=
  .obj
    [("configuration", .obj [("image", .str "docker.io/cloudflare/containers:getting-started")]),
     ("instances", .num 2),
     ("scheduling_policy", .str "regional"),
     ("name", .str (config.name.getD "my-containers-application"))]

/-- The TOML document printed on the bootstrap path (c3.ts lines 266–271),
wrapped under `env.<name>` when `--env` was given. -/
def exampleEndConfig (args : ApplyArgs) (config : Config) : JVal :=
  match args.env with
  | some e => .obj [("env", .obj [(e, .obj [("container_app", .arr [exampleApplication config])])])]
  | none => .obj [("container_app", .arr [exampleApplication config])]

/-- The sequential apply phase (c3.ts lines 392–479): one remote call per action,
in the order of the `actions` array.  The error branches (ApiError rendering and
`crash`) terminate the process and concern no claim under verification; the model
records the calls of the successful pass. -/
def applyPhase : List Action → List Event
  | [] => []
  | .create application :: rest =>
      [Event.createApplicationCall application,
       Event.success ("Created application " ++ application.name)] ++ applyPhase rest
  | .modify application id name :: rest =>
      [Event.modifyApplicationCall id application,
       Event.success ("Modified application " ++ name)] ++ applyPhase rest

/-- Source: `applyCommand` (c3.ts lines 244–482) as a function of its inputs: the
parsed arguments, the configuration, the remote listing's response, and the
interactive confirmation answer.  Returns the full event trace and the computed
action list.  `confirmAnswer` is the user's reply to the confirmation prompt; if
`--json` was set, `processArgument` short-circuits the prompt to `true`. -/
def applyCommand (args : ApplyArgs) (config : Config) (applications : List Application)
    (confirmAnswer : Bool) : List Event × List Action :=
  let startEvents := [Event.startSection "Deploy a container application"
    "deploy all the changes of your application"]
  if config.container_app.isEmpty then
    (startEvents ++
      [Event.endSection "You don't have any container applications defined in your wrangler.toml"
        (some "You can set the following configuration in your wrangler.toml"),
       Event.printedExample (exampleEndConfig args config)],
     [])
  else
    let byName := applicationByNames applications
    let loop := reconcileLoop byName config.container_app
    let headerEvents := startEvents ++
      [Event.listApplicationsCall, Event.log "Container application changes\n"]
    if loop.1.isEmpty then
      (headerEvents ++ loop.2 ++ [Event.endSection "No changes to be made" none], loop.1)
    else
      let yes := if args.json then true else confirmAnswer
      let promptEvents := if args.json then [] else
        [Event.confirmPrompt "Do you want to apply these changes?"]
      if yes then
        (headerEvents ++ loop.2 ++ promptEvents ++ applyPhase loop.1 ++
          [Event.endSection "Applied changes" none], loop.1)
      else
        (headerEvents ++ loop.2 ++ promptEvents ++ [Event.cancel "Not applying changes"], loop.1)

theorem sortList_eq_map (xs : List JVal) : sortList xs = xs.map sortObjectDeeply := by
  induction xs with
  | nil => rfl
  | cons x xs ih => simp only [sortList, ih, List.map_cons]

theorem sortEntries_eq_map (kvs : List (String × JVal)) :
    sortEntries kvs =
      kvs.map fun kv => (kv.1, if kv.2.isObjectType then sortObjectDeeply kv.2 else kv.2) := by
  induction kvs with
  | nil => rfl
  | cons kv rest ih =>
    obtain ⟨k, v⟩ := kv
    simp only [sortEntries, ih, List.map_cons]

theorem sortObjectDeeply_arr (xs : List JVal) :
    sortObjectDeeply (.arr xs) = .arr (xs.map sortObjectDeeply) := by
  rw [sortObjectDeeply, sortList_eq_map]

theorem sortObjectDeeply_obj (kvs : List (String × JVal)) :
    sortObjectDeeply (.obj kvs) = .obj (List.insertionSort entryLe (sortEntries kvs)) := by
  rw [sortObjectDeeply, order]

theorem sortObjectDeeply_of_not_objectType {v : JVal} (h : v.isObjectType = false) :
    sortObjectDeeply v = v := by
  cases v <;> first | rfl | simp [JVal.isObjectType] at h

/-- The canonical forms produced by the deep sort: keys sorted at every depth. -/
inductive DeepSorted : JVal → Prop where
  | prim (v : JVal) : v.isObjectType = false → DeepSorted v
  | arr (xs : List JVal) : (∀ x ∈ xs, DeepSorted x) → DeepSorted (.arr xs)
  | obj (kvs : List (String × JVal)) : (∀ kv ∈ kvs, DeepSorted kv.2) →
      List.Sorted entryLe kvs → DeepSorted (.obj kvs)

theorem deepSorted_sortObjectDeeply : ∀ v, DeepSorted (sortObjectDeeply v) := by
  intro v
  induction v using JVal.memInduction with
  | str s => exact .prim _ rfl
  | num n => exact .prim _ rfl
  | bool b => exact .prim _ rfl
  | undef => exact .prim _ rfl
  | arr xs ih =>
    rw [sortObjectDeeply_arr]
    refine .arr _ fun y hy => ?_
    obtain ⟨x, hx, rfl⟩ := List.mem_map.mp hy
    exact ih x hx
  | obj kvs ih =>
    rw [sortObjectDeeply_obj]
    refine .obj _ (fun kv hkv => ?_) (List.sorted_insertionSort entryLe _)
    rw [List.mem_insertionSort, sortEntries_eq_map] at hkv
    obtain ⟨⟨k, v⟩, hmem, rfl⟩ := List.mem_map.mp hkv
    by_cases hv : v.isObjectType
    · simpa [hv] using ih (k, v) hmem
    · simp only at hv
      simpa [hv] using DeepSorted.prim v (by simpa using hv)

theorem sortObjectDeeply_eq_self_of_deepSorted {v : JVal} (h : DeepSorted v) :
    sortObjectDeeply v = v := by
  induction h with
  | prim v hv => exact sortObjectDeeply_of_not_objectType hv
  | arr xs hx ih =>
    rw [sortObjectDeeply_arr, List.map_congr_left ih]
    simp
  | obj kvs hkv hs ih =>
    rw [sortObjectDeeply_obj, sortEntries_eq_map]
    have hmap : (kvs.map fun kv =>
        (kv.1, if kv.2.isObjectType then sortObjectDeeply kv.2 else kv.2)) = kvs := by
      rw [List.map_congr_left (g := fun kv => kv)]
      · simp
      · intro kv hm
        split
        · rw [ih kv hm]
        · rfl
    rw [hmap, hs.insertionSort_eq]

theorem reconcileLoop_foldl (byName : String → Option Application) :
    ∀ (specs : List CreateApplicationRequest) (acc : List Action × List Event),
      specs.foldl
        (fun acc appConfig =>
          let step := specStep byName appConfig
          (acc.1 ++ step.1.toList, acc.2 ++ step.2)) acc =
      (acc.1 ++ specs.filterMap fun s => (specStep byName s).1,
       acc.2 ++ specs.flatMap fun s => (specStep byName s).2) := by
  intro specs
  induction specs with
  | nil => intro acc; simp
  | cons s specs ih =>
    intro acc
    rw [List.foldl_cons, ih]
    simp only [List.filterMap_cons, List.flatMap_cons]
    cases h : (specStep byName s).1 <;> simp [h, Option.toList]

theorem reconcileLoop_eq (byName : String → Option Application)
    (specs : List CreateApplicationRequest) :
    reconcileLoop byName specs =
      (specs.filterMap fun s => (specStep byName s).1,
       specs.flatMap fun s => (specStep byName s).2) := by
  rw [reconcileLoop, reconcileLoop_foldl]
  simp

/-- Shared with the claim theorems: the computed action list is the in-order
`filterMap` of the per-entry step over the declared list. -/
theorem applyCommand_actions (args : ApplyArgs) (config : Config)
    (applications : List Application) (confirmAnswer : Bool) :
    (applyCommand args config applications confirmAnswer).2 =
      config.container_app.filterMap
        fun s => (specStep (applicationByNames applications) s).1 := by
  rw [applyCommand]
  split
  · rename_i hempty
    rw [List.isEmpty_iff] at hempty
    simp [hempty]
  · simp only [reconcileLoop_eq]
    repeat' split
    all_goals rfl

/-- Shared with the claim theorems: on a non-empty declared list, every event of
the declared-entry loop appears in the command's trace. -/
theorem mem_applyCommand_events_of_mem_loop (args : ApplyArgs) (config : Config)
    (applications : List Application) (confirmAnswer : Bool) {e : Event}
    (hne : ¬config.container_app.isEmpty)
    (he : e ∈ config.container_app.flatMap
      fun s => (specStep (applicationByNames applications) s).2) :
    e ∈ (applyCommand args config applications confirmAnswer).1 := by
  rw [applyCommand]
  rw [if_neg hne]
  simp only [reconcileLoop_eq]
  repeat' split
  all_goals simp [he]

theorem undefFreeList_eq_true_iff (xs : List JVal) :
    undefFreeList xs = true ↔ ∀ x ∈ xs, undefFree x = true := by
  induction xs with
  | nil => simp [undefFreeList]
  | cons x xs ih => simp [undefFreeList, Bool.and_eq_true, ih]

theorem undefFreeEntries_eq_true_iff (kvs : List (String × JVal)) :
    undefFreeEntries kvs = true ↔ ∀ kv ∈ kvs, undefFree kv.2 = true := by
  induction kvs with
  | nil => simp [undefFreeEntries]
  | cons kv rest ih =>
    obtain ⟨k, v⟩ := kv
    simp [undefFreeEntries, Bool.and_eq_true, ih]

theorem deepStripList_eq_map (xs : List JVal) :
    deepStripList xs = xs.map deepStripUndefined := by
  induction xs with
  | nil => rfl
  | cons x xs ih => simp only [deepStripList, ih, List.map_cons]

theorem deepStripEntries_eq (kvs : List (String × JVal)) :
    deepStripEntries kvs =
      (kvs.filter fun kv => !kv.2.isUndef).map fun kv => (kv.1, deepStripUndefined kv.2) := by
  induction kvs with
  | nil => rfl
  | cons kv rest ih =>
    obtain ⟨k, v⟩ := kv
    by_cases hv : v.isUndef <;> simp [deepStripEntries, hv, ih]

theorem undefFree_not_isUndef {v : JVal} (h : undefFree v = true) : v.isUndef = false := by
  cases v <;> simp_all [undefFree, JVal.isUndef]

theorem deepStripUndefined_eq_self_of_undefFree {v : JVal} (h : undefFree v = true) :
    deepStripUndefined v = v := by
  induction v using JVal.memInduction with
  | str s => rfl
  | num n => rfl
  | bool b => rfl
  | undef => simp [undefFree] at h
  | arr xs ih =>
    rw [undefFree, undefFreeList_eq_true_iff] at h
    rw [deepStripUndefined, deepStripList_eq_map,
      List.map_congr_left fun x hx => ih x hx (h x hx)]
    simp
  | obj kvs ih =>
    rw [undefFree, undefFreeEntries_eq_true_iff] at h
    rw [deepStripUndefined, deepStripEntries_eq]
    have hfilter : (kvs.filter fun kv => !kv.2.isUndef) = kvs :=
      List.filter_eq_self.mpr fun kv hkv => by
        simp [undefFree_not_isUndef (h kv hkv)]
    rw [hfilter,
      List.map_congr_left (g := fun kv => kv) fun kv hkv => by
        rw [ih kv hkv (h kv hkv)]]
    simp

theorem stripUndefined_eq_self_of_undefFree {v : JVal} (h : undefFree v = true) :
    stripUndefined v = v := by
  cases v with
  | obj kvs =>
    rw [undefFree, undefFreeEntries_eq_true_iff] at h
    rw [stripUndefined]
    rw [List.filter_eq_self.mpr fun kv hkv => by simp [undefFree_not_isUndef (h kv hkv)]]
  | _ => rfl

/-- If every top-level child of an object is either itself `undefined` or free of
`undefined` at all depths, the source's top-level `stripUndefined` and the
specification's strip-at-every-depth normalizer agree on it. -/
theorem deepStripUndefined_obj_eq_stripUndefined (kvs : List (String × JVal))
    (h : ∀ kv ∈ kvs, kv.2.isUndef = true ∨ undefFree kv.2 = true) :
    deepStripUndefined (.obj kvs) = stripUndefined (.obj kvs) := by
  rw [deepStripUndefined, deepStripEntries_eq, stripUndefined]
  congr 1
  rw [List.map_congr_left (g := fun kv => kv) fun kv hkv => ?_]
  · simp
  · have hmem := List.mem_of_mem_filter hkv
    have hkeep := List.of_mem_filter hkv
    rcases h kv hmem with hu | hf
    · simp [hu] at hkeep
    · rw [deepStripUndefined_eq_self_of_undefFree hf]

/-- The remote listing is deserialized JSON: an optional field of a listed
application is either absent (`undef` on property access) or a JSON value, which
contains no `undefined` anywhere. -/
def fieldOk (v : JVal) : Bool :=
  v.isUndef || undefFree v

/-- All optional configuration fields of a listed application are JSON-derived
(see `fieldOk`); this is what the API client's deserializer guarantees. -/
def appFieldsOk (application : Application) : Bool :=
  fieldOk application.configuration && fieldOk application.constraints &&
    fieldOk application.scheduling_policy && fieldOk application.affinities &&
      fieldOk application.instances

/-- On a JSON-derived listed application, the source's top-level strip of the
create-request projection agrees with the specification's deep strip. -/
theorem stripUndefined_proj_eq_deepStrip {application : Application}
    (h : appFieldsOk application = true) :
    stripUndefined (applicationToCreateApplication application) =
      deepStripUndefined (applicationToCreateApplication application) := by
  rw [appFieldsOk] at h
  simp only [Bool.and_eq_true, fieldOk, Bool.or_eq_true] at h
  obtain ⟨⟨⟨⟨h1, h2⟩, h3⟩, h4⟩, h5⟩ := h
  refine (deepStripUndefined_obj_eq_stripUndefined _ fun kv hkv => ?_).symm
  simp only [applicationToCreateApplication, List.mem_cons, List.not_mem_nil, or_false] at hkv
  rcases hkv with rfl | rfl | rfl | rfl | rfl | rfl | rfl
  · exact h1
  · exact h2
  · right; rfl
  · exact h3
  · exact h4
  · exact h5
  · split
    · right; rfl
    · left; rfl

/-- The "no changes" branch of the loop body (c3.ts lines 317–321). -/
theorem specStep_noChanges {byName : String → Option Application}
    {appConfig : CreateApplicationRequest} {application : Application}
    (hmatch : byName appConfig.name = some application)
    (heq : sortObjectDeeply (stripUndefined (applicationToCreateApplication application))
         = sortObjectDeeply appConfig.toJVal) :
    specStep byName appConfig =
      (none, [.updateStatus ("no changes " ++ application.name)]) := by
  simp [specStep, hmatch, heq]

/-- The "edited" branch of the loop body (c3.ts lines 323–353). -/
theorem specStep_modify {byName : String → Option Application}
    {appConfig : CreateApplicationRequest} {application : Application}
    (hmatch : byName appConfig.name = some application)
    (hne : sortObjectDeeply (stripUndefined (applicationToCreateApplication application))
         ≠ sortObjectDeeply appConfig.toJVal) :
    specStep byName appConfig =
      (some (.modify appConfig application.id application.name),
       [.updateStatus ("edited " ++ application.name),
        .printedDiff
          (JVal.obj [("container_app",
            sortObjectDeeply (stripUndefined (applicationToCreateApplication application)))])
          (JVal.obj [("container_app", sortObjectDeeply appConfig.toJVal)])]) := by
  simp [specStep, hmatch, hne]

/-- The "new" branch of the loop body (c3.ts lines 356–370). -/
theorem specStep_create {byName : String → Option Application}
    {appConfig : CreateApplicationRequest}
    (hnone : byName appConfig.name = none) :
    specStep byName appConfig =
      (some (.create appConfig),
       [.updateStatus ("new " ++ appConfig.name),
        .printedNewSpec (JVal.obj [("container_app", .arr [appConfig.toJVal])])]) := by
  simp [specStep, hnone]

/-- **C1.** For every declared spec and live resource pair whose normalized
(undefined-stripped, deep-sorted) contents are identical, the reconciler's apply
command emits no action for that pair and reports "no changes" for that resource
name.  The two provenance hypotheses record what the external collaborators
guarantee: the declared entry is parsed from TOML (no `undefined` anywhere) and
the listed application is deserialized JSON (optional fields absent or
`undefined`-free). -/
theorem noAction_and_noChanges_report_of_identical_normalized
    (args : ApplyArgs) (config : Config) (applications : List Application)
    (confirmAnswer : Bool) {appConfig : CreateApplicationRequest} {application : Application}
    (hmem : appConfig ∈ config.container_app)
    (hmatch : applicationByNames applications appConfig.name = some application)
    (happ : appFieldsOk application = true)
    (hspec : undefFree appConfig.toJVal = true)
    (hnorm : sortObjectDeeply (deepStripUndefined (applicationToCreateApplication application))
           = sortObjectDeeply (deepStripUndefined appConfig.toJVal)) :
    (specStep (applicationByNames applications) appConfig).1 = none ∧
      Event.updateStatus ("no changes " ++ application.name)
        ∈ (applyCommand args config applications confirmAnswer).1 := by
  have heq : sortObjectDeeply (stripUndefined (applicationToCreateApplication application))
      = sortObjectDeeply appConfig.toJVal := by
    rw [stripUndefined_proj_eq_deepStrip happ, hnorm,
      deepStripUndefined_eq_self_of_undefFree hspec]
  have hstep := specStep_noChanges hmatch heq
  refine ⟨by rw [hstep], ?_⟩
  apply mem_applyCommand_events_of_mem_loop
  · simp only [List.isEmpty_iff]
    exact List.ne_nil_of_mem hmem
  · rw [List.mem_flatMap]
    exact ⟨appConfig, hmem, by rw [hstep]; simp⟩

/-- Witness for C1 at a concrete pair: declared `{name = "web", instances = 2}`
matching a live application whose only set optional field is `instances = 2`. -/
theorem noAction_and_noChanges_report_witness :
    appFieldsOk ⟨"id-1", "web", .undef, .undef, .undef, .undef, .num 2, .undef⟩ = true ∧
      ((specStep
          (applicationByNames [⟨"id-1", "web", .undef, .undef, .undef, .undef, .num 2, .undef⟩])
          ⟨"web", [("instances", .num 2)]⟩).1 = none ∧
        Event.updateStatus ("no changes " ++ "web")
          ∈ (applyCommand ⟨true, none⟩ ⟨[⟨"web", [("instances", .num 2)]⟩], none⟩
              [⟨"id-1", "web", .undef, .undef, .undef, .undef, .num 2, .undef⟩] true).1) :=
  ⟨by decide,
   @noAction_and_noChanges_report_of_identical_normalized ⟨true, none⟩
     ⟨[⟨"web", [("instances", .num 2)]⟩], none⟩
     [⟨"id-1", "web", .undef, .undef, .undef, .undef, .num 2, .undef⟩] true
     ⟨"web", [("instances", .num 2)]⟩
     ⟨"id-1", "web", .undef, .undef, .undef, .undef, .num 2, .undef⟩
     (by decide) (by decide) (by decide) (by decide) (by decide)⟩

/-- **C2.** For every declared spec whose name matches no live resource in the
remote listing, the reconciler emits exactly one Create action whose payload is
the original declared spec, unmodified by normalization: the loop pushes
`{action: "create", application: appConfig}` with the untouched `appConfig`, and
since every declared entry contributes at most one action
(`applyCommand_actions`), this is the only action for that entry. -/
theorem create_action_of_unmatched_name
    (args : ApplyArgs) (config : Config) (applications : List Application)
    (confirmAnswer : Bool) {appConfig : CreateApplicationRequest}
    (hmem : appConfig ∈ config.container_app)
    (hnone : applicationByNames applications appConfig.name = none) :
    (specStep (applicationByNames applications) appConfig).1 = some (.create appConfig) ∧
      Action.create appConfig ∈ (applyCommand args config applications confirmAnswer).2 := by
  have hstep := specStep_create hnone
  refine ⟨by rw [hstep], ?_⟩
  rw [applyCommand_actions, List.mem_filterMap]
  exact ⟨appConfig, hmem, by rw [hstep]⟩

/-- Witness for C2: a declared `{name = "api", instances = 1}` against an empty
remote listing yields a Create action carrying the original spec. -/
theorem create_action_of_unmatched_name_witness :
    applicationByNames [] "api" = none ∧
      ((specStep (applicationByNames []) ⟨"api", [("instances", .num 1)]⟩).1
          = some (.create ⟨"api", [("instances", .num 1)]⟩) ∧
        Action.create ⟨"api", [("instances", .num 1)]⟩
          ∈ (applyCommand ⟨false, none⟩ ⟨[⟨"api", [("instances", .num 1)]⟩], none⟩ [] true).2) :=
  ⟨by decide,
   @create_action_of_unmatched_name ⟨false, none⟩ ⟨[⟨"api", [("instances", .num 1)]⟩], none⟩
     [] true ⟨"api", [("instances", .num 1)]⟩ (by decide) (by decide)⟩

/-- **C3.** For every declared spec that matches a live resource by name with at
least one differing normalized field, the reconciler emits exactly one Modify
action that carries the full declared spec (not a patch) and references the
matched live resource's id. -/
theorem modify_action_of_differing_normalized
    (args : ApplyArgs) (config : Config) (applications : List Application)
    (confirmAnswer : Bool) {appConfig : CreateApplicationRequest} {application : Application}
    (hmem : appConfig ∈ config.container_app)
    (hmatch : applicationByNames applications appConfig.name = some application)
    (happ : appFieldsOk application = true)
    (hspec : undefFree appConfig.toJVal = true)
    (hdiff : sortObjectDeeply (deepStripUndefined (applicationToCreateApplication application))
           ≠ sortObjectDeeply (deepStripUndefined appConfig.toJVal)) :
    (specStep (applicationByNames applications) appConfig).1
        = some (.modify appConfig application.id application.name) ∧
      Action.modify appConfig application.id application.name
        ∈ (applyCommand args config applications confirmAnswer).2 := by
  have hne : sortObjectDeeply (stripUndefined (applicationToCreateApplication application))
      ≠ sortObjectDeeply appConfig.toJVal := by
    rw [stripUndefined_proj_eq_deepStrip happ,
      ← deepStripUndefined_eq_self_of_undefFree hspec]
    exact hdiff
  have hstep := specStep_modify hmatch hne
  refine ⟨by rw [hstep], ?_⟩
  rw [applyCommand_actions, List.mem_filterMap]
  exact ⟨appConfig, hmem, by rw [hstep]⟩

/-- Witness for C3: declared `{name = "web", instances = 3}` differs from the
live resource's `instances = 2`, so a Modify with the full spec and id "id-1" is
emitted. -/
theorem modify_action_of_differing_normalized_witness :
    appFieldsOk ⟨"id-1", "web", .undef, .undef, .undef, .undef, .num 2, .undef⟩ = true ∧
      ((specStep
          (applicationByNames [⟨"id-1", "web", .undef, .undef, .undef, .undef, .num 2, .undef⟩])
          ⟨"web", [("instances", .num 3)]⟩).1
          = some (.modify ⟨"web", [("instances", .num 3)]⟩ "id-1" "web") ∧
        Action.modify ⟨"web", [("instances", .num 3)]⟩ "id-1" "web"
          ∈ (applyCommand ⟨true, none⟩ ⟨[⟨"web", [("instances", .num 3)]⟩], none⟩
              [⟨"id-1", "web", .undef, .undef, .undef, .undef, .num 2, .undef⟩] true).2) :=
  ⟨by decide,
   @modify_action_of_differing_normalized ⟨true, none⟩
     ⟨[⟨"web", [("instances", .num 3)]⟩], none⟩
     [⟨"id-1", "web", .undef, .undef, .undef, .undef, .num 2, .undef⟩] true
     ⟨"web", [("instances", .num 3)]⟩
     ⟨"id-1", "web", .undef, .undef, .undef, .undef, .num 2, .undef⟩
     (by decide) (by decide) (by decide) (by decide) (by decide)⟩

/-- **C4, counterexample.**  The claim — both sides are normalized by stripping
`undefined`-valued keys at every nesting depth — fails on the code: (a) the live
resource's projection is stripped by `stripUndefined`, which is top-level only
(its own TODO says so), so a nested `undefined` under `configuration` survives;
(b) the declared spec is not stripped at all before `sortObjectDeeply`, so a
top-level `undefined`-valued key of the declared object survives. -/
theorem normalization_strips_at_every_depth_counterexample :
    sortObjectDeeply (stripUndefined (applicationToCreateApplication
        ⟨"app-1", "web", .obj [("image", .str "img"), ("cmd", .undef)],
         .undef, .undef, .undef, .undef, .undef⟩))
      ≠ sortObjectDeeply (deepStripUndefined (applicationToCreateApplication
        ⟨"app-1", "web", .obj [("image", .str "img"), ("cmd", .undef)],
         .undef, .undef, .undef, .undef, .undef⟩)) ∧
    sortObjectDeeply (CreateApplicationRequest.toJVal ⟨"web", [("instances", .undef)]⟩)
      ≠ sortObjectDeeply (deepStripUndefined
          (CreateApplicationRequest.toJVal ⟨"web", [("instances", .undef)]⟩)) := by
  decide

/-- **C4, amended.**  Before comparison, the live resource's create-request
projection is stripped of top-level `undefined`-valued keys only (and the
declared spec is not stripped), then both sides are deep-sorted.  On the inputs
that actually occur — declared specs parsed from TOML contain no `undefined`
anywhere; live resources are deserialized JSON, so optional fields are absent or
`undefined`-free — this agrees with the claimed strip-at-every-depth
normalization of both sides. -/
theorem normalization_agrees_with_deep_strip_on_reachable_inputs :
    (∀ application : Application, appFieldsOk application = true →
      sortObjectDeeply (stripUndefined (applicationToCreateApplication application)) =
        sortObjectDeeply (deepStripUndefined (applicationToCreateApplication application))) ∧
    (∀ appConfig : CreateApplicationRequest, undefFree appConfig.toJVal = true →
      sortObjectDeeply appConfig.toJVal =
        sortObjectDeeply (deepStripUndefined appConfig.toJVal)) :=
  ⟨fun application happ => by rw [stripUndefined_proj_eq_deepStrip happ],
   fun appConfig hspec => by rw [deepStripUndefined_eq_self_of_undefFree hspec]⟩

/-- Witness for the amended C4 at a concrete live application (one absent
optional field, one JSON-derived `configuration`) and a concrete declared
spec. -/
theorem normalization_agrees_witness :
    (appFieldsOk ⟨"app-1", "web", .obj [("image", .str "img")],
        .undef, .undef, .undef, .num 2, .undef⟩ = true ∧
      sortObjectDeeply (stripUndefined (applicationToCreateApplication
          ⟨"app-1", "web", .obj [("image", .str "img")],
           .undef, .undef, .undef, .num 2, .undef⟩)) =
        sortObjectDeeply (deepStripUndefined (applicationToCreateApplication
          ⟨"app-1", "web", .obj [("image", .str "img")],
           .undef, .undef, .undef, .num 2, .undef⟩))) ∧
    (undefFree (CreateApplicationRequest.toJVal ⟨"web", [("instances", .num 2)]⟩) = true ∧
      sortObjectDeeply (CreateApplicationRequest.toJVal ⟨"web", [("instances", .num 2)]⟩) =
        sortObjectDeeply (deepStripUndefined
          (CreateApplicationRequest.toJVal ⟨"web", [("instances", .num 2)]⟩))) :=
  ⟨⟨by decide,
    normalization_agrees_with_deep_strip_on_reachable_inputs.1
      ⟨"app-1", "web", .obj [("image", .str "img")], .undef, .undef, .undef, .num 2, .undef⟩
      (by decide)⟩,
   ⟨by decide,
    normalization_agrees_with_deep_strip_on_reachable_inputs.2
      ⟨"web", [("instances", .num 2)]⟩ (by decide)⟩⟩

/-- **C5.** Deep-sort normalization is idempotent — `sortObjectDeeply` applied to
an already-sorted value yields an identical structure — and it never changes the
order of elements of any array: at every array node (hence at every depth) the
result is the positional image of the input's elements. -/
theorem sortObjectDeeply_idempotent_and_array_order_preserved :
    (∀ v : JVal, sortObjectDeeply (sortObjectDeeply v) = sortObjectDeeply v) ∧
    (∀ xs : List JVal, sortObjectDeeply (.arr xs) = .arr (xs.map sortObjectDeeply)) :=
  ⟨fun v => sortObjectDeeply_eq_self_of_deepSorted (deepSorted_sortObjectDeeply v),
   sortObjectDeeply_arr⟩

/-- **C6.** For every declared configuration and remote listing, the computed
action list is the in-order `filterMap` of the per-entry loop step over the
declared `container_app` list: its order equals the order of the declared
ResourceSpec entries (each entry contributes its action, if any, in place). -/
theorem actions_order_matches_declared_order (args : ApplyArgs) (config : Config)
    (applications : List Application) (confirmAnswer : Bool) :
    (applyCommand args config applications confirmAnswer).2 =
      config.container_app.filterMap
        fun appConfig => (specStep (applicationByNames applications) appConfig).1 :=
  applyCommand_actions args config applications confirmAnswer

/-- **C7.** Whenever the local declared resource set is empty, the reconciler's
trace is exactly the section banner, the bootstrap message and the printed
example declaration block — it contains no call to the remote listing endpoint
nor to any other remote endpoint, and no actions are computed. -/
theorem empty_declared_set_prints_example_and_calls_no_endpoint
    (args : ApplyArgs) (config : Config) (applications : List Application)
    (confirmAnswer : Bool) (h : config.container_app = []) :
    (applyCommand args config applications confirmAnswer).1 =
      [Event.startSection "Deploy a container application"
        "deploy all the changes of your application",
       Event.endSection "You don't have any container applications defined in your wrangler.toml"
        (some "You can set the following configuration in your wrangler.toml"),
       Event.printedExample (exampleEndConfig args config)] ∧
    (∀ e ∈ (applyCommand args config applications confirmAnswer).1,
      e.isRemoteCall = false) ∧
    (applyCommand args config applications confirmAnswer).2 = [] := by
  have hempty : config.container_app.isEmpty := by simp [h]
  have hevents : (applyCommand args config applications confirmAnswer).1 =
      [Event.startSection "Deploy a container application"
        "deploy all the changes of your application",
       Event.endSection "You don't have any container applications defined in your wrangler.toml"
        (some "You can set the following configuration in your wrangler.toml"),
       Event.printedExample (exampleEndConfig args config)] := by
    rw [applyCommand, if_pos hempty]
    rfl
  refine ⟨hevents, ?_, by rw [applyCommand, if_pos hempty]⟩
  intro e he
  rw [hevents] at he
  simp only [List.mem_cons, List.not_mem_nil, or_false] at he
  rcases he with rfl | rfl | rfl <;> rfl

/-- Witness for C7 at a concrete empty configuration (with `--env staging` and a
default name set, covering the `env`-wrapped example block). -/
theorem empty_declared_set_witness :
    (Config.container_app ⟨[], some "my-app"⟩ = []) ∧
      ((applyCommand ⟨false, some "staging"⟩ ⟨[], some "my-app"⟩ [] true).1 =
        [Event.startSection "Deploy a container application"
          "deploy all the changes of your application",
         Event.endSection
          "You don't have any container applications defined in your wrangler.toml"
          (some "You can set the following configuration in your wrangler.toml"),
         Event.printedExample (exampleEndConfig ⟨false, some "staging"⟩ ⟨[], some "my-app"⟩)] ∧
        (∀ e ∈ (applyCommand ⟨false, some "staging"⟩ ⟨[], some "my-app"⟩ [] true).1,
          e.isRemoteCall = false) ∧
        (applyCommand ⟨false, some "staging"⟩ ⟨[], some "my-app"⟩ [] true).2 = []) :=
  ⟨rfl,
   empty_declared_set_prints_example_and_calls_no_endpoint ⟨false, some "staging"⟩
     ⟨[], some "my-app"⟩ [] true rfl⟩

end Containers

deriving instance DecidableEq for Except

namespace R2Lifecycle

/-- Numeric value of a list of decimal digits. -/
def digitsToNat (cs : List Char) : Nat :=
  cs.foldl (fun acc c => acc * 10 + (c.toNat - 48)) 0

/-- Modelled from the spec: JavaScript's `Number(string)` coercion is language
semantics external to the repository.  The spec discusses day-count inputs that
are (possibly signed) whole numbers of days, so the model covers the
decimal-integer fragment of `Number()`: the empty string coerces to `0`, an
optional sign followed by decimal digits coerces to that integer, and anything
else — including date strings such as `"2025-01-01"` — is NaN (`none`). -/
def jsNumber (s : String) : Option Int :=
  match s.data with
  | [] => some 0
  | '-' :: rest =>
      if rest ≠ [] ∧ rest.all Char.isDigit then some (-(digitsToNat rest : Int)) else none
  | '+' :: rest =>
      if rest ≠ [] ∧ rest.all Char.isDigit then some ((digitsToNat rest : Int)) else none
  | cs => if cs.all Char.isDigit then some ((digitsToNat cs : Int)) else none

/-- Modelled from the spec: `isValidDate` lives in `./helpers`, which is not
among the provided sources.  The spec describes the accepted input as "a
calendar date in `YYYY-MM-DD` form": four digits, dash, a two-digit month
`01`–`12`, dash, a two-digit day `01`–`31`. -/
def isValidDate (s : String) : Bool :=
  match s.data with
  | [y1, y2, y3, y4, '-', m1, m2, '-', d1, d2] =>
      [y1, y2, y3, y4, m1, m2, d1, d2].all Char.isDigit &&
        (decide (1 ≤ digitsToNat [m1, m2]) && decide (digitsToNat [m1, m2] ≤ 12)) &&
          (decide (1 ≤ digitsToNat [d1, d2]) && decide (digitsToNat [d1, d2] ≤ 31))
  | _ => false

/-- Modelled from the spec: `new Date(input + "T00:00:00.000Z").toISOString()`
(JavaScript `Date` semantics, external to the repository).  For a calendar date
`YYYY-MM-DD` the result is "an ISO-8601 UTC midnight timestamp": the input with
`"T00:00:00.000Z"` appended. -/
def toIsoMidnight (s : String) : String :=
  s ++ "T00:00:00.000Z"

/-- A lifecycle condition `{maxAge|date, type}`; the `type` tag (`"Age"` or
`"Date"`) is determined by which field is populated, so it is carried by the
constructor. -/
inductive LifecycleCondition where
  | age (maxAge : Int)
  | date (date : String)
deriving DecidableEq, Repr

/-- The `conditions` object of a rule; `prefix` in the source (renamed: `prefix`
is a Lean keyword). -/
structure LifecycleRuleConditions where
  rulePrefix : Option String
deriving DecidableEq, Repr

/-- One entry of `storageClassTransitions`. -/
structure StorageClassTransition where
  condition : LifecycleCondition
  storageClass : String
deriving DecidableEq, Repr

/-- Modelled from the spec (§3): the `LifecycleRule` type is declared in
`./helpers`, outside the provided sources — `{id, enabled, conditions:
{prefix?}, deleteObjectsTransition?, storageClassTransitions?[],
abortMultipartUploadsTransition?}`.  The source wraps each transition's
condition as `{condition: {...}}`; the single-field wrapper is flattened
here. -/
structure LifecycleRule where
  id : String
  enabled : Bool
  conditions : LifecycleRuleConditions
  deleteObjectsTransition : Option LifecycleCondition := none
  storageClassTransitions : Option (List StorageClassTransition) := none
  abortMultipartUploadsTransition : Option LifecycleCondition := none
deriving DecidableEq, Repr

/-- The `validate` callback of the abort-multipart condition prompt
(lifecycle.ts lines 171–175): rejects exactly when `Number(value)` is NaN,
returning the message; accepts (returns `undefined`) otherwise. -/
def abortConditionValidate (value : String) : Option String :=
  if (jsNumber value).isNone then some "Please enter a number of days" else none

/-- The `validate` callback of the expire/transition condition prompt
(lifecycle.ts lines 192–196). -/
def dateConditionValidate (value : String) : Option String :=
  if (jsNumber value).isNone ∧ isValidDate value = false then
    some "Please enter a number of days or a valid date in the YYYY-MM-DD format"
  else none

/-- One iteration of `for (const action of selectedActions)` (lifecycle.ts
lines 162–229) on the collected condition input.  The interactive prompt re-asks
until its validator accepts, so a rejected input never reaches the conversion;
the model returns the validator's message as an error in that case.  The `else`
fallthrough for an action label outside the fixed choice set leaves the rule
unchanged, as the source's `if`/`else if` chain does. -/
def applyAction (rule : LifecycleRule) (action : String) (conditionInput : String) :
    Except String LifecycleRule :=
  if action = "abort-multipart" then
    match jsNumber conditionInput with
    | some n => .ok { rule with abortMultipartUploadsTransition := some (.age (n * 86400)) }
    | none => .error "Please enter a number of days"
  else
    match jsNumber conditionInput with
    | some n =>
        let cond := LifecycleCondition.age (n * 86400)
        if action = "expire" then .ok { rule with deleteObjectsTransition := some cond }
        else if action = "transition" then
          .ok { rule with storageClassTransitions := some [⟨cond, "InfrequentAccess"⟩] }
        else .ok rule
    | none =>
        if isValidDate conditionInput then
          let cond := LifecycleCondition.date (toIsoMidnight conditionInput)
          if action = "expire" then .ok { rule with deleteObjectsTransition := some cond }
          else if action = "transition" then
            .ok { rule with storageClassTransitions := some [⟨cond, "InfrequentAccess"⟩] }
          else .ok rule
        else .error "Invalid condition input."

/-- The interactive answers collected by the add workflow: the rule id, the
prefix answer, the selected action labels, and the condition answer given for
each selected action's prompt. -/
structure AddInputs where
  ruleId : String
  prefixInput : String
  selectedActions : List String
  conditionInput : String → String

/-- The rule `AddHandler` assembles (lifecycle.ts lines 122–229): start from
`{id, enabled: true, conditions: {}}`, set `conditions.prefix` when the prefix
answer is truthy (non-empty), then fold the per-action condition collection over
the selected actions. -/
def buildLifecycleRule (inp : AddInputs) : Except String LifecycleRule :=
  let newRule : LifecycleRule := { id := inp.ruleId, enabled := true, conditions := ⟨none⟩ }
  let newRule := if inp.prefixInput != "" then
      { newRule with conditions := ⟨some inp.prefixInput⟩ } else newRule
  inp.selectedActions.foldlM
    (fun rule action => applyAction rule action (inp.conditionInput action)) newRule

/-- Observable effects of the remove workflow: the fetch, log lines, and the
write-back of the whole rule list. -/
inductive R2Event where
  | getLifecycleRulesCall
  | putLifecycleRulesCall (rules : List LifecycleRule)
  | log (message : String)
deriving DecidableEq, Repr

/-- JavaScript's `Array.prototype.findIndex`: index of the first match, `-1` if
none. -/
def findIndex (p : α → Bool) : List α → Int
  | [] => -1
  | x :: xs =>
      if p x then 0
      else
        let r := findIndex p xs
        if r = -1 then -1 else r + 1

/-- Source: `RemoveHandler` (lifecycle.ts lines 258–286) as a function of the
fetched rule list and the requested id: `findIndex` on the id, a thrown
`UserError` when it is `-1` (before any write), otherwise `splice(index, 1)` and
a `putLifecycleRules` call with the spliced list. -/
def removeHandler (bucket ruleId : String) (fetched : List LifecycleRule) :
    List R2Event × Except String (List LifecycleRule) :=
  let index := findIndex (fun rule => rule.id == ruleId) fetched
  if index = -1 then
    ([R2Event.getLifecycleRulesCall],
     .error ("Lifecycle rule with ID '" ++ ruleId ++ "' not found in policy for '"
       ++ bucket ++ "'."))
  else
    ([R2Event.getLifecycleRulesCall,
      R2Event.log ("Removing lifecycle rule '" ++ ruleId ++ "' from bucket '"
        ++ bucket ++ "'..."),
      R2Event.putLifecycleRulesCall (fetched.eraseIdx index.toNat),
      R2Event.log ("Lifcycle rule '" ++ ruleId ++ "' removed from bucket '"
        ++ bucket ++ "'.")],
     .ok (fetched.eraseIdx index.toNat))

theorem findIndex_neg_one_of_forall {p : α → Bool} :
    ∀ {l : List α}, (∀ x ∈ l, p x = false) → findIndex p l = -1 := by
  intro l
  induction l with
  | nil => intro _; rfl
  | cons x xs ih =>
    intro h
    rw [findIndex]
    rw [h x (by simp), if_neg (by simp)]
    simp [ih fun y hy => h y (by simp [hy])]

theorem findIndex_ge_zero_of_ne {p : α → Bool} :
    ∀ {l : List α}, findIndex p l ≠ -1 → 0 ≤ findIndex p l := by
  intro l
  induction l with
  | nil => intro h; exact absurd rfl h
  | cons x xs ih =>
    intro h
    rw [findIndex] at h ⊢
    by_cases hx : p x
    · simp [hx]
    · simp only [hx, if_false, Bool.false_eq_true] at h ⊢
      split at h
      · exact absurd rfl h
      · rename_i hr
        rw [if_neg hr]
        have := ih hr
        omega

/-- `findIndex` followed by a single-element splice removes exactly the first
match, leaving every other element in its original order: it agrees with
`List.eraseP`. -/
theorem eraseIdx_findIndex_eq_eraseP {p : α → Bool} :
    ∀ {l : List α}, (∃ x ∈ l, p x = true) →
      findIndex p l ≠ -1 ∧ l.eraseIdx (findIndex p l).toNat = l.eraseP p := by
  intro l
  induction l with
  | nil => rintro ⟨x, hx, _⟩; exact absurd hx (List.not_mem_nil x)
  | cons x xs ih =>
    rintro ⟨y, hy, hpy⟩
    by_cases hx : p x
    · refine ⟨by rw [findIndex]; simp [hx], ?_⟩
      rw [findIndex, if_pos hx]
      rw [List.eraseP_cons_of_pos hx]
      rfl
    · have hyxs : y ∈ xs := by
        rcases List.mem_cons.mp hy with rfl | h
        · exact absurd hpy (by simp [hx])
        · exact h
      obtain ⟨hne, herase⟩ := ih ⟨y, hyxs, hpy⟩
      have hge := findIndex_ge_zero_of_ne hne
      refine ⟨?_, ?_⟩
      · rw [findIndex, if_neg (by simp [hx])]
        simp only [if_neg hne]
        omega
      · rw [findIndex, if_neg (by simp [hx])]
        simp only [if_neg hne]
        rw [List.eraseP_cons_of_neg (by simp [hx])]
        have htn : (findIndex p xs + 1).toNat = (findIndex p xs).toNat + 1 := by omega
        rw [htn, List.eraseIdx_cons_succ, herase]

/-- **C8.** In the lifecycle-rule add workflow, a day-count condition input
`"7"` converts to `maxAge = 604800` seconds (days times 86400) — shown both for
the abort-multipart action and for the expire action — and a date condition
input `"2025-01-01"` converts to the ISO-8601 UTC midnight timestamp
`date = "2025-01-01T00:00:00.000Z"`. -/
theorem condition_conversion_day_count_and_date :
    buildLifecycleRule ⟨"rule-1", "", ["abort-multipart"], fun _ => "7"⟩ =
      .ok { id := "rule-1", enabled := true, conditions := ⟨none⟩,
            abortMultipartUploadsTransition := some (.age 604800) } ∧
    buildLifecycleRule ⟨"rule-2", "", ["expire"], fun _ => "7"⟩ =
      .ok { id := "rule-2", enabled := true, conditions := ⟨none⟩,
            deleteObjectsTransition := some (.age 604800) } ∧
    buildLifecycleRule ⟨"rule-3", "", ["expire"], fun _ => "2025-01-01"⟩ =
      .ok { id := "rule-3", enabled := true, conditions := ⟨none⟩,
            deleteObjectsTransition := some (.date "2025-01-01T00:00:00.000Z") } := by
  decide

/-- **C9, counterexample.** The claim — a day-count condition input passes
validation only if it is a non-negative integer number of days — fails: the
validator of the abort-multipart condition prompt checks nothing beyond
`isNaN(Number(value))`, so the negative day count `"-5"` passes validation. -/
theorem day_count_validation_accepts_negative :
    abortConditionValidate "-5" = none ∧ jsNumber "-5" = some (-5) ∧ ((-5 : Int) < 0) := by
  decide

/-- **C9, amended.** A day-count condition input passes validation exactly when
it coerces to a number under JavaScript's `Number()` (is not NaN); neither
non-negativity nor integrality is checked, so negative day counts such as `"-5"`
and the empty string (which coerces to `0`) are accepted.  Any non-numeric input
is rejected at the point of collection with the validation message. -/
theorem day_count_validation_iff_numeric :
    (∀ s : String, abortConditionValidate s = none ↔ (jsNumber s).isSome = true) ∧
    abortConditionValidate "-5" = none ∧
    abortConditionValidate "" = none ∧
    abortConditionValidate "abc" = some "Please enter a number of days" := by
  refine ⟨fun s => ?_, by decide, by decide, by decide⟩
  rw [abortConditionValidate]
  rcases h : jsNumber s with _ | n <;> simp [h]

/-- **C10.** Lifecycle-rule removal with an id present in the fetched list
writes back the list with exactly the first element carrying that id deleted and
all other elements in their original order (`eraseP`), and reports it as the
result; removal with an id absent from the list produces the not-found error and
performs no remote write (no `putLifecycleRules` call appears in the trace). -/
theorem remove_rule_present_or_absent (bucket ruleId : String)
    (rules : List LifecycleRule) :
    ((∃ r ∈ rules, r.id = ruleId) →
      (removeHandler bucket ruleId rules).2 =
          .ok (rules.eraseP fun r => r.id == ruleId) ∧
        R2Event.putLifecycleRulesCall (rules.eraseP fun r => r.id == ruleId)
          ∈ (removeHandler bucket ruleId rules).1) ∧
    ((∀ r ∈ rules, r.id ≠ ruleId) →
      (removeHandler bucket ruleId rules).2 =
          .error ("Lifecycle rule with ID '" ++ ruleId ++ "' not found in policy for '"
            ++ bucket ++ "'.") ∧
        ∀ rs, R2Event.putLifecycleRulesCall rs ∉ (removeHandler bucket ruleId rules).1) := by
  constructor
  · rintro ⟨r, hr, hid⟩
    obtain ⟨hne, herase⟩ :=
      eraseIdx_findIndex_eq_eraseP (p := fun rule => rule.id == ruleId)
        ⟨r, hr, by simp [hid]⟩
    rw [removeHandler]
    simp only [if_neg hne]
    exact ⟨by rw [herase], by rw [herase]; simp⟩
  · intro h
    have hidx : findIndex (fun rule => rule.id == ruleId) rules = -1 :=
      findIndex_neg_one_of_forall fun r hr => by simp [h r hr]
    rw [removeHandler]
    simp only [hidx, if_pos]
    exact ⟨by simp, by simp⟩

/-- Witness for C10 on the spec's own example: removing `"b"` from
`[{id:"a"},{id:"b"}]` yields `[{id:"a"}]` with a write-back of exactly that
list; removing the absent `"zzz"` errors and never writes. -/
theorem remove_rule_witness :
    ((removeHandler "bkt" "b" [⟨"a", true, ⟨none⟩, none, none, none⟩,
        ⟨"b", true, ⟨none⟩, none, none, none⟩]).2 =
          .ok [⟨"a", true, ⟨none⟩, none, none, none⟩] ∧
      R2Event.putLifecycleRulesCall [⟨"a", true, ⟨none⟩, none, none, none⟩]
        ∈ (removeHandler "bkt" "b" [⟨"a", true, ⟨none⟩, none, none, none⟩,
            ⟨"b", true, ⟨none⟩, none, none, none⟩]).1) ∧
    ((removeHandler "bkt" "zzz" [⟨"a", true, ⟨none⟩, none, none, none⟩,
        ⟨"b", true, ⟨none⟩, none, none, none⟩]).2 =
          .error ("Lifecycle rule with ID '" ++ "zzz" ++ "' not found in policy for '"
            ++ "bkt" ++ "'.") ∧
      ∀ rs, R2Event.putLifecycleRulesCall rs
        ∉ (removeHandler "bkt" "zzz" [⟨"a", true, ⟨none⟩, none, none, none⟩,
            ⟨"b", true, ⟨none⟩, none, none, none⟩]).1) :=
  ⟨(remove_rule_present_or_absent "bkt" "b"
      [⟨"a", true, ⟨none⟩, none, none, none⟩, ⟨"b", true, ⟨none⟩, none, none, none⟩]).1
      ⟨⟨"b", true, ⟨none⟩, none, none, none⟩, by decide, rfl⟩,
   (remove_rule_present_or_absent "bkt" "zzz"
      [⟨"a", true, ⟨none⟩, none, none, none⟩, ⟨"b", true, ⟨none⟩, none, none, none⟩]).2
      (by decide)⟩

end R2Lifecycle
